import Mathlib

/-!
Shallow embedding of the repository source file udcode.py (class Converter):
an encoder from byte sequences to square color-grid images and the matching
decoder.  Bytes are natural numbers below 256, colors are RGB triples of
naturals, and an image carries its pixel dimensions together with a pixel
lookup function.  The external collaborators of the code (zlib compression
and decompression) are passed in as function parameters, following the
interface the source calls.
-/

namespace UDCode

abbrev Color := Nat × Nat × Nat

/-- Converter.PALETTE: the eight palette colors, indexed 0 to 7. -/
def PALETTE : List Color :=
  [(0, 0, 0), (255, 0, 0), (0, 255, 0), (0, 0, 255),
   (255, 255, 0), (255, 0, 255), (0, 255, 255), (255, 255, 255)]

/-- Converter.MARKER_SIZE. -/
def MARKER_SIZE : Nat := 3

/-- Converter.PIXEL_SIZE. -/
def PIXEL_SIZE : Nat := 8

/-- One shift-xor round of the standard reflected CRC-32 used by zlib.crc32. -/
def crc32Round (c : Nat) : Nat :=
  if c % 2 = 1 then (c / 2) ^^^ 0xEDB88320 else c / 2

/-- Feed one byte into a CRC-32 accumulator. -/
def crc32Update (c b : Nat) : Nat := crc32Round^[8] (c ^^^ b)

/-- Model of zlib.crc32 on a byte sequence: the standard CRC-32 checksum. -/
def crc32 (data : List Nat) : Nat :=
  (data.foldl crc32Update 0xFFFFFFFF) ^^^ 0xFFFFFFFF

/-- Big-endian four-byte encoding of a 32-bit value, as written by the
struct.pack field I of the header (line 62). -/
def u32be (n : Nat) : List Nat :=
  [n / 2 ^ 24 % 256, n / 2 ^ 16 % 256, n / 2 ^ 8 % 256, n % 256]

/-- Line 62: the 13-byte header packed by struct.pack with big-endian fields
body length, raw length, checksum and a one-byte compressed flag. -/
def packHeader (bodyLen rawLen checksum : Nat) (compress : Bool) : List Nat :=
  u32be bodyLen ++ u32be rawLen ++ u32be checksum ++ [if compress then 1 else 0]

/-- Line 66: the eight bits of a byte, most significant first. -/
def byteToBits (b : Nat) : List Nat :=
  [b / 128 % 2, b / 64 % 2, b / 32 % 2, b / 16 % 2,
   b / 8 % 2, b / 4 % 2, b / 2 % 2, b % 2]

/-- Lines 67-68: right-pad the bit string with zero bits to a multiple of
three.  The while loop appends exactly this many zeros. -/
def padBits (bits : List Nat) : List Nat :=
  bits ++ List.replicate ((3 - bits.length % 3) % 3) 0

/-- Line 70: consecutive three-bit groups read as numbers 0 to 7. -/
def bitsToSymbols : List Nat → List Nat
  | b0 :: b1 :: b2 :: rest => (4 * b0 + 2 * b1 + b2) :: bitsToSymbols rest
  | _ => []

/-- Line 192: the three bits of a symbol, most significant first. -/
def symbolToBits (s : Nat) : List Nat := [s / 4 % 2, s / 2 % 2, s % 2]

/-- Lines 193-195: consecutive eight-bit groups read as bytes; trailing bits
short of a full byte are dropped, as the loop bound len minus 7 does. -/
def bitsToBytes : List Nat → List Nat
  | b0 :: b1 :: b2 :: b3 :: b4 :: b5 :: b6 :: b7 :: rest =>
      (128 * b0 + 64 * b1 + 32 * b2 + 16 * b3 + 8 * b4 + 4 * b5 + 2 * b6 + b7)
        :: bitsToBytes rest
  | _ => []

/-- Lines 66-70: bytes to bit string, zero-padded, sliced into 3-bit symbols. -/
def pack (data : List Nat) : List Nat :=
  bitsToSymbols (padBits (data.flatMap byteToBits))

/-- Lines 192-195: symbols to bit string, sliced into whole bytes. -/
def unpack (symbols : List Nat) : List Nat :=
  bitsToBytes (symbols.flatMap symbolToBits)

/-- Lines 76-80: data cells available in a square grid of the given size. -/
def count_data_positions (size : Nat) : Nat :=
  size * size - 4 * MARKER_SIZE * MARKER_SIZE

/-- Lines 83-85: the while loop growing the grid until it fits, written with
explicit fuel bounding the number of iterations; gridLoop_spec shows the
fuel used by computeGridSize is never exhausted. -/
def gridLoop : Nat → Nat → Nat → Nat
  | 0, _, g => g
  | fuel + 1, total, g =>
      if count_data_positions g < total then gridLoop fuel total (g + 1) else g

/-- Lines 82-85: smallest square grid size, searched linearly from twice the
marker size upward. -/
def computeGridSize (total : Nat) : Nat :=
  gridLoop (total + 1) total (2 * MARKER_SIZE)

/-- Lines 97-102 and 176-181: a cell is a marker cell when it lies in one of
the four marker-sized corner blocks. -/
def is_marker (col row gw gh : Nat) : Bool :=
  decide (col < MARKER_SIZE ∧ row < MARKER_SIZE)
  || decide (gw - MARKER_SIZE ≤ col ∧ row < MARKER_SIZE)
  || decide (col < MARKER_SIZE ∧ gh - MARKER_SIZE ≤ row)
  || decide (gw - MARKER_SIZE ≤ col ∧ gh - MARKER_SIZE ≤ row)

/-- Lines 235-257, Converter._get_marker_color: the marker pattern color of a
cell, or none for a non-marker cell. -/
def get_marker_color (col row gw gh : Nat) : Option Color :=
  if col < MARKER_SIZE ∧ row < MARKER_SIZE then
    some (if (col + row) % 2 = 0 then (255, 255, 255) else (0, 0, 0))
  else if gw - MARKER_SIZE ≤ col ∧ row < MARKER_SIZE then
    let dx := col - (gw - MARKER_SIZE)
    some (if dx % 2 = 0 then (0, 0, 0) else (255, 255, 255))
  else if col < MARKER_SIZE ∧ gh - MARKER_SIZE ≤ row then
    let dy := row - (gh - MARKER_SIZE)
    some (if dy % 2 = 0 then (0, 0, 0) else (255, 255, 255))
  else if gw - MARKER_SIZE ≤ col ∧ gh - MARKER_SIZE ≤ row then
    let dx := col - (gw - MARKER_SIZE)
    let dy := row - (gh - MARKER_SIZE)
    let dist := min (min dx dy) (min (MARKER_SIZE - 1 - dx) (MARKER_SIZE - 1 - dy))
    some (if dist % 2 = 0 then (0, 0, 0) else (255, 255, 255))
  else none

/-- Row-major traversal of a grid: row outer, column inner, both ascending,
producing column-row pairs, as the nested for loops of lines 94-95 and
174-175 do. -/
def gridCells (gw gh : Nat) : List (Nat × Nat) :=
  (List.range gh).flatMap fun row => (List.range gw).map fun col => (col, row)

/-- Lines 90-106: walk the cells in row-major order handing the next unused
symbol to each non-marker cell; once the symbols run out no later cell
receives one (the exhausted iterator assigns nothing further). -/
def assignCells : List (Nat × Nat) → Nat → Nat → List Nat → List ((Nat × Nat) × Nat)
  | [], _, _, _ => []
  | c :: rest, gw, gh, syms =>
      if is_marker c.1 c.2 gw gh then assignCells rest gw gh syms
      else
        match syms with
        | [] => []
        | s :: srest => (c, s) :: assignCells rest gw gh srest

/-- Dictionary lookup in the data grid association list. -/
def gridLookup : List ((Nat × Nat) × Nat) → (Nat × Nat) → Option Nat
  | [], _ => none
  | (k, v) :: rest, c => if c = k then some v else gridLookup rest c

/-- Lines 125-128: the color of a non-marker cell, from the palette when the
cell carries a symbol and black otherwise. -/
def dataColor (dg : List ((Nat × Nat) × Nat)) (c : Nat × Nat) : Color :=
  match gridLookup dg c with
  | some idx => PALETTE.getD idx (0, 0, 0)
  | none => (0, 0, 0)

/-- Lines 121-128: the color painted into a cell: the marker pattern for
marker cells, otherwise the data color. -/
def cellColor (dg : List ((Nat × Nat) × Nat)) (gw gh col row : Nat) : Color :=
  match get_marker_color col row gw gh with
  | some mc => mc
  | none => dataColor dg (col, row)

/-- A pixel canvas: its dimensions and a pixel lookup.  Painting a cell fills
the whole PIXEL_SIZE by PIXEL_SIZE block with one solid color (lines
116-131), so the pixel at x y holds the color of the cell at x and y
divided by PIXEL_SIZE. -/
structure Img where
  width : Nat
  height : Nat
  pixel : Nat → Nat → Color

/-- Lines 42-149, Converter.file_to_image: frame the input, pack it into
symbols, lay the symbols out on the smallest fitting square grid and paint
the canvas.  The zlib compressor is the compressFn parameter. -/
def file_to_image (compressFn : List Nat → List Nat) (compress : Bool)
    (input : List Nat) : Img :=
  let original_size := input.length
  let data := if compress then compressFn input else input
  let checksum := crc32 data &&& 0xFFFFFFFF
  let full_data := packHeader data.length original_size checksum compress ++ data
  let color_indices := pack full_data
  let grid_size := computeGridSize color_indices.length
  let data_grid := assignCells (gridCells grid_size grid_size) grid_size grid_size color_indices
  { width := grid_size * PIXEL_SIZE
    height := grid_size * PIXEL_SIZE
    pixel := fun x y => cellColor data_grid grid_size grid_size (x / PIXEL_SIZE) (y / PIXEL_SIZE) }

/-- Squared RGB distance of line 266, over the integers since the Python
subtraction may go negative. -/
def sqDist (a b : Color) : Int :=
  ((a.1 : Int) - b.1) ^ 2 + ((a.2.1 : Int) - b.2.1) ^ 2 + ((a.2.2 : Int) - b.2.2) ^ 2

/-- One iteration of the loop of lines 265-269; the first component none
stands for the initial infinite minimum distance. -/
def closestStep (c : Color) (acc : Option Int × Nat) (ip : Nat × Color) :
    Option Int × Nat :=
  match acc with
  | (none, _) => (some (sqDist c ip.2), ip.1)
  | (some m, i) => if sqDist c ip.2 < m then (some (sqDist c ip.2), ip.1) else (some m, i)

/-- Lines 259-271, Converter._find_closest_color: the palette index whose
color is nearest to the sampled pixel. -/
def find_closest_color (c : Color) : Nat :=
  (PALETTE.enum.foldl (closestStep c) (none, 0)).2

/-- Big-endian 32-bit read at a byte offset, as struct.unpack does on the
header slice (line 201). -/
def readU32 (l : List Nat) (i : Nat) : Nat :=
  2 ^ 24 * l.getD i 0 + 2 ^ 16 * l.getD (i + 1) 0 + 2 ^ 8 * l.getD (i + 2) 0
    + l.getD (i + 3) 0

/-- Lines 197-233: parse the 13-byte header out of the recovered byte stream,
slice the body, check the checksum (advisory only), and decompress when
the flag byte is nonzero.  The result carries the checksum-mismatch
warning flag together with the output bytes.  The zlib decompressor is
the decompFn parameter; it returns none when it rejects its input. -/
def parseAndExtract (decompFn : List Nat → Option (List Nat))
    (byte_array : List Nat) : Except String (Bool × List Nat) :=
  if byte_array.length < 13 then .error "Image too small for valid header"
  else
    let compressed_size := readU32 byte_array 0
    let original_size := readU32 byte_array 4
    let expected_crc := readU32 byte_array 8
    let compress_flag := byte_array.getD 12 0
    let data := (byte_array.drop 13).take compressed_size
    let actual_crc := crc32 data &&& 0xFFFFFFFF
    let warning := decide (actual_crc ≠ expected_crc)
    let _ := original_size
    if compress_flag ≠ 0 then
      match decompFn data with
      | some d => .ok (warning, d)
      | none => .error "Decompression failed"
    else .ok (warning, data)

/-- Lines 151-233, Converter.image_to_file: derive the grid from the canvas
dimensions, sample the center pixel of every non-marker cell in row-major
order, quantize to palette indices, rebuild the byte stream and parse it. -/
def image_to_file (decompFn : List Nat → Option (List Nat)) (img : Img) :
    Except String (Bool × List Nat) :=
  let grid_width := img.width / PIXEL_SIZE
  let grid_height := img.height / PIXEL_SIZE
  let color_indices := (gridCells grid_width grid_height).filterMap fun c =>
    if is_marker c.1 c.2 grid_width grid_height then none
    else some (find_closest_color
      (img.pixel (c.1 * PIXEL_SIZE + PIXEL_SIZE / 2) (c.2 * PIXEL_SIZE + PIXEL_SIZE / 2)))
  parseAndExtract decompFn (unpack color_indices)

/-- The marker pattern in the words of the specification, for the refinement
comparison of claim C7: in the top-left block the color alternates by
col plus row mod 2; in the top-right and bottom-left blocks by the offset
of the cell from the inner edge of the block mod 2; in the bottom-right
block by the minimum of the four edge distances within the 3 by 3 block
mod 2.  Marker size 3 is substituted, so the inner edges sit at g minus 3
and the far edge distances are 2 minus the offset. -/
def markerColorSpec (col row g : Nat) : Color :=
  if col < 3 ∧ row < 3 then
    if (col + row) % 2 = 0 then (255, 255, 255) else (0, 0, 0)
  else if g - 3 ≤ col ∧ row < 3 then
    if (col - (g - 3)) % 2 = 0 then (0, 0, 0) else (255, 255, 255)
  else if col < 3 ∧ g - 3 ≤ row then
    if (row - (g - 3)) % 2 = 0 then (0, 0, 0) else (255, 255, 255)
  else
    if (min (min (col - (g - 3)) (row - (g - 3)))
          (min (2 - (col - (g - 3))) (2 - (row - (g - 3))))) % 2 = 0
    then (0, 0, 0) else (255, 255, 255)

/-! Bit-level lemmas about the packer. -/

lemma byteToBits_lt_two {b x : Nat} (hx : x ∈ byteToBits b) : x < 2 := by
  simp only [byteToBits, List.mem_cons, List.not_mem_nil, or_false] at hx
  rcases hx with h | h | h | h | h | h | h | h <;> subst h <;> omega

lemma bitsToBytes_byte_append {b : Nat} (hb : b < 256) (rest : List Nat) :
    bitsToBytes (byteToBits b ++ rest) = b :: bitsToBytes rest := by
  simp only [byteToBits, List.cons_append, List.nil_append, bitsToBytes,
    List.cons.injEq]
  exact ⟨by omega, by simp⟩

lemma bitsToBytes_flatMap {bs : List Nat} (hb : ∀ b ∈ bs, b < 256) (rest : List Nat) :
    bitsToBytes (bs.flatMap byteToBits ++ rest) = bs ++ bitsToBytes rest := by
  induction bs with
  | nil => simp
  | cons a t ih =>
      rw [List.flatMap_cons, List.append_assoc,
        bitsToBytes_byte_append (hb a (by simp)),
        ih (fun b h => hb b (by simp [h]))]
      rfl

lemma symbolToBits_bits {b0 b1 b2 : Nat} (h0 : b0 < 2) (h1 : b1 < 2) (h2 : b2 < 2) :
    symbolToBits (4 * b0 + 2 * b1 + b2) = [b0, b1, b2] := by
  simp only [symbolToBits, List.cons.injEq, and_true]
  refine ⟨by omega, by omega, by omega⟩

lemma flatMap_bitsToSymbols : ∀ (bits : List Nat), (∀ x ∈ bits, x < 2) →
    bits.length % 3 = 0 → (bitsToSymbols bits).flatMap symbolToBits = bits
  | [], _, _ => by simp [bitsToSymbols]
  | [a], _, h => by simp at h
  | [a, b], _, h => by simp at h
  | b0 :: b1 :: b2 :: rest, hb, hlen => by
      have hr : rest.length % 3 = 0 := by
        simp only [List.length_cons] at hlen; omega
      rw [show bitsToSymbols (b0 :: b1 :: b2 :: rest)
            = (4 * b0 + 2 * b1 + b2) :: bitsToSymbols rest from rfl,
        List.flatMap_cons,
        symbolToBits_bits (hb b0 (by simp)) (hb b1 (by simp)) (hb b2 (by simp)),
        flatMap_bitsToSymbols rest (fun x hx => hb x (by simp [hx])) hr]
      rfl

lemma bitsToSymbols_lt_eight : ∀ (bits : List Nat), (∀ x ∈ bits, x < 2) →
    ∀ s ∈ bitsToSymbols bits, s < 8
  | [], _, s, hs => by simp [bitsToSymbols] at hs
  | [a], _, s, hs => by simp [bitsToSymbols] at hs
  | [a, b], _, s, hs => by simp [bitsToSymbols] at hs
  | b0 :: b1 :: b2 :: rest, hb, s, hs => by
      rw [show bitsToSymbols (b0 :: b1 :: b2 :: rest)
            = (4 * b0 + 2 * b1 + b2) :: bitsToSymbols rest from rfl] at hs
      rcases List.mem_cons.mp hs with h | h
      · have e0 := hb b0 (by simp)
        have e1 := hb b1 (by simp)
        have e2 := hb b2 (by simp)
        omega
      · exact bitsToSymbols_lt_eight rest (fun x hx => hb x (by simp [hx])) s h

lemma padBits_length (bits : List Nat) : (padBits bits).length % 3 = 0 := by
  simp only [padBits, List.length_append, List.length_replicate]
  omega

lemma padBits_lt_two {bits : List Nat} (hb : ∀ x ∈ bits, x < 2) :
    ∀ x ∈ padBits bits, x < 2 := by
  intro x hx
  rcases List.mem_append.mp hx with h | h
  · exact hb x h
  · rw [List.eq_of_mem_replicate h]; omega

lemma flatMap_byteToBits_lt_two (bs : List Nat) :
    ∀ x ∈ bs.flatMap byteToBits, x < 2 := by
  intro x hx
  obtain ⟨b, _, hb⟩ := List.mem_flatMap.mp hx
  exact byteToBits_lt_two hb

lemma pack_lt_eight (d : List Nat) : ∀ s ∈ pack d, s < 8 :=
  bitsToSymbols_lt_eight _ (padBits_lt_two (flatMap_byteToBits_lt_two d))

lemma flatMap_pack (d : List Nat) :
    (pack d).flatMap symbolToBits = padBits (d.flatMap byteToBits) :=
  flatMap_bitsToSymbols _ (padBits_lt_two (flatMap_byteToBits_lt_two d))
    (padBits_length _)

lemma flatMap_replicate_zero (k : Nat) :
    (List.replicate k 0).flatMap symbolToBits = List.replicate (3 * k) 0 := by
  induction k with
  | zero => simp
  | succ n ih =>
      have e : 3 * (n + 1) = 3 + 3 * n := by ring
      rw [List.replicate_succ, List.flatMap_cons, ih, e, List.replicate_add]
      rfl

/-- Claim C5 core: unpacking a packed byte sequence restores it exactly (the
zero padding never completes an extra byte here only when lengths work out;
in general unpack may append bytes, so the claim takes a length-limited
prefix). -/
lemma unpack_pack {d : List Nat} (hd : ∀ b ∈ d, b < 256) :
    unpack (pack d) = d ++ bitsToBytes (List.replicate ((3 - (d.flatMap byteToBits).length % 3) % 3) 0) := by
  rw [unpack, flatMap_pack, padBits, bitsToBytes_flatMap hd]

lemma bitsToBytes_small {bits : List Nat} (h : bits.length < 8) :
    bitsToBytes bits = [] := by
  match bits, h with
  | [], _ => rfl
  | [a], _ => rfl
  | [a, b], _ => rfl
  | [a, b, c], _ => rfl
  | [a, b, c, d], _ => rfl
  | [a, b, c, d, e], _ => rfl
  | [a, b, c, d, e, f], _ => rfl
  | [a, b, c, d, e, f, g], _ => rfl
  | a :: b :: c :: d :: e :: f :: g :: i :: rest, h =>
      simp only [List.length_cons] at h; omega

/-! Grid-size search. -/

lemma gridLoop_spec : ∀ (fuel total g : Nat),
    total ≤ count_data_positions (g + fuel) →
    g ≤ gridLoop fuel total g ∧
    total ≤ count_data_positions (gridLoop fuel total g) ∧
    ∀ g2, g ≤ g2 → total ≤ count_data_positions g2 → gridLoop fuel total g ≤ g2 := by
  intro fuel
  induction fuel with
  | zero =>
      intro total g h
      refine ⟨le_refl g, by simpa [gridLoop] using h, fun g2 hg _ => by simpa [gridLoop] using hg⟩
  | succ n ih =>
      intro total g h
      by_cases hc : count_data_positions g < total
      · have h2 : total ≤ count_data_positions (g + 1 + n) := by
          have e : g + 1 + n = g + (n + 1) := by omega
          rw [e]; exact h
        obtain ⟨i1, i2, i3⟩ := ih total (g + 1) h2
        refine ⟨?_, ?_, ?_⟩
        · simp only [gridLoop, if_pos hc]; omega
        · simp only [gridLoop, if_pos hc]; exact i2
        · intro g2 hg2 hcg2
          simp only [gridLoop, if_pos hc]
          have hne : g2 ≠ g := by
            intro he; rw [he] at hcg2; omega
          exact i3 g2 (by omega) hcg2
      · simp only [gridLoop, if_neg hc]
        exact ⟨le_refl g, by omega, fun g2 hg _ => hg⟩

/-- The grid-size search returns the smallest size at least twice the marker
size whose grid holds all the symbols. -/
lemma computeGridSize_spec (total : Nat) :
    2 * MARKER_SIZE ≤ computeGridSize total ∧
    total ≤ count_data_positions (computeGridSize total) ∧
    ∀ g2, 2 * MARKER_SIZE ≤ g2 → total ≤ count_data_positions g2 →
      computeGridSize total ≤ g2 := by
  have h : total ≤ count_data_positions (2 * MARKER_SIZE + (total + 1)) := by
    simp only [count_data_positions, MARKER_SIZE]
    have e : (2 * 3 + (total + 1)) * (2 * 3 + (total + 1))
        = total * total + 14 * total + 49 := by ring
    omega
  exact gridLoop_spec (total + 1) total (2 * MARKER_SIZE) h

/-! Marker classification and palette quantization. -/

lemma get_marker_color_eq_none {col row gw gh : Nat} :
    get_marker_color col row gw gh = none ↔ is_marker col row gw gh = false := by
  unfold get_marker_color is_marker
  split_ifs with h1 h2 h3 h4 <;> simp_all

lemma find_closest_black : find_closest_color (0, 0, 0) = 0 := by decide

lemma find_closest_palette : ∀ s, s < 8 →
    find_closest_color (PALETTE.getD s (0, 0, 0)) = s := by decide

/-! Header parsing on a well-formed frame followed by arbitrary junk bytes. -/

lemma readU32_cons13_0 (a0 a1 a2 a3 a4 a5 a6 a7 a8 a9 a10 a11 a12 : Nat)
    (t : List Nat) :
    readU32 (a0 :: a1 :: a2 :: a3 :: a4 :: a5 :: a6 :: a7 :: a8 :: a9 :: a10
      :: a11 :: a12 :: t) 0 = 2 ^ 24 * a0 + 2 ^ 16 * a1 + 2 ^ 8 * a2 + a3 := rfl

lemma readU32_cons13_8 (a0 a1 a2 a3 a4 a5 a6 a7 a8 a9 a10 a11 a12 : Nat)
    (t : List Nat) :
    readU32 (a0 :: a1 :: a2 :: a3 :: a4 :: a5 :: a6 :: a7 :: a8 :: a9 :: a10
      :: a11 :: a12 :: t) 8 = 2 ^ 24 * a8 + 2 ^ 16 * a9 + 2 ^ 8 * a10 + a11 := rfl

lemma getD_cons13_12 (a0 a1 a2 a3 a4 a5 a6 a7 a8 a9 a10 a11 a12 : Nat)
    (t : List Nat) :
    (a0 :: a1 :: a2 :: a3 :: a4 :: a5 :: a6 :: a7 :: a8 :: a9 :: a10
      :: a11 :: a12 :: t).getD 12 0 = a12 := rfl

lemma drop_cons13 (a0 a1 a2 a3 a4 a5 a6 a7 a8 a9 a10 a11 a12 : Nat)
    (t : List Nat) :
    (a0 :: a1 :: a2 :: a3 :: a4 :: a5 :: a6 :: a7 :: a8 :: a9 :: a10
      :: a11 :: a12 :: t).drop 13 = t := rfl

lemma u32be_value {n : Nat} (h : n < 2 ^ 32) :
    2 ^ 24 * (n / 2 ^ 24 % 256) + 2 ^ 16 * (n / 2 ^ 16 % 256)
      + 2 ^ 8 * (n / 2 ^ 8 % 256) + n % 256 = n := by
  omega

lemma packHeader_cons (bl rl ck : Nat) (fl : Bool) (t : List Nat) :
    (packHeader bl rl ck fl ++ t)
      = bl / 2 ^ 24 % 256 :: bl / 2 ^ 16 % 256 :: bl / 2 ^ 8 % 256 :: bl % 256
        :: rl / 2 ^ 24 % 256 :: rl / 2 ^ 16 % 256 :: rl / 2 ^ 8 % 256 :: rl % 256
        :: ck / 2 ^ 24 % 256 :: ck / 2 ^ 16 % 256 :: ck / 2 ^ 8 % 256 :: ck % 256
        :: (if fl then 1 else 0) :: t := by
  simp [packHeader, u32be]

/-- Parsing the byte stream consisting of an encoded frame followed by junk
bytes recovers the declared fields and slices exactly the body. -/
lemma parseAndExtract_frame (decompFn : List Nat → Option (List Nat))
    (rl ck : Nat) (fl : Bool) (body extra : List Nat)
    (hbl : body.length < 2 ^ 32) (hck : ck < 2 ^ 32) :
    parseAndExtract decompFn ((packHeader body.length rl ck fl ++ body) ++ extra)
      = if fl then
          match decompFn body with
          | some d => Except.ok (decide (crc32 body &&& 0xFFFFFFFF ≠ ck), d)
          | none => Except.error "Decompression failed"
        else Except.ok (decide (crc32 body &&& 0xFFFFFFFF ≠ ck), body) := by
  rw [List.append_assoc, packHeader_cons]
  rw [parseAndExtract]
  rw [if_neg (by simp)]
  simp only [readU32_cons13_0, readU32_cons13_8, getD_cons13_12, drop_cons13,
    u32be_value hbl, u32be_value hck, List.take_left]
  cases fl with
  | false => simp
  | true => simp

/-! Counting the data cells of a square grid. -/

lemma countP_range_eq_card (p : Nat → Prop) [DecidablePred p] :
    ∀ n, (List.range n).countP (fun i => decide (p i))
      = ((Finset.range n).filter p).card := by
  intro n
  induction n with
  | zero => simp
  | succ k ih =>
      rw [List.range_succ, List.countP_append, Finset.range_succ,
        Finset.filter_insert]
      by_cases h : p k
      · rw [if_pos h, Finset.card_insert_of_not_mem (by simp)]
        simp [List.countP_cons, h, ih]
      · rw [if_neg h]
        simp [List.countP_cons, h, ih]

lemma card_band {g : Nat} (h6 : 6 ≤ g) :
    ((Finset.range g).filter (fun i => i < 3 ∨ g - 3 ≤ i)).card = 6 := by
  have e : (Finset.range g).filter (fun i => i < 3 ∨ g - 3 ≤ i)
      = Finset.range 3 ∪ Finset.Ico (g - 3) g := by
    ext x
    simp only [Finset.mem_filter, Finset.mem_range, Finset.mem_union,
      Finset.mem_Ico]
    omega
  rw [e, Finset.card_union_of_disjoint]
  · rw [Finset.card_range, Nat.card_Ico]; omega
  · rw [Finset.disjoint_left]
    intro a ha hb
    simp only [Finset.mem_range] at ha
    simp only [Finset.mem_Ico] at hb
    omega

lemma card_nonband {g : Nat} (h6 : 6 ≤ g) :
    ((Finset.range g).filter (fun i => ¬(i < 3 ∨ g - 3 ≤ i))).card = g - 6 := by
  have e : (Finset.range g).filter (fun i => ¬(i < 3 ∨ g - 3 ≤ i))
      = Finset.Ico 3 (g - 3) := by
    ext x
    simp only [Finset.mem_filter, Finset.mem_range, Finset.mem_Ico]
    omega
  rw [e, Nat.card_Ico]
  omega

lemma is_marker_band {col row g : Nat} (h6 : 6 ≤ g) (hrow : row < 3 ∨ g - 3 ≤ row) :
    is_marker col row g g = decide (col < 3 ∨ g - 3 ≤ col) := by
  rw [Bool.eq_iff_iff]
  simp only [is_marker, MARKER_SIZE, Bool.or_eq_true, decide_eq_true_eq]
  omega

lemma is_marker_mid {col row g : Nat} (hrow : ¬(row < 3 ∨ g - 3 ≤ row)) :
    is_marker col row g g = false := by
  simp only [is_marker, MARKER_SIZE, Bool.or_eq_false_iff,
    decide_eq_false_iff_not]
  omega

lemma countP_row {g row : Nat} (h6 : 6 ≤ g) :
    (List.range g).countP (fun col => !is_marker col row g g)
      = if row < 3 ∨ g - 3 ≤ row then g - 6 else g := by
  by_cases hrow : row < 3 ∨ g - 3 ≤ row
  · rw [if_pos hrow]
    have e : ∀ col ∈ List.range g,
        (!is_marker col row g g) = decide (¬(col < 3 ∨ g - 3 ≤ col)) := by
      intro col _
      rw [is_marker_band h6 hrow, Bool.eq_iff_iff]
      simp
    rw [List.countP_congr (fun x hx => by rw [e x hx]),
      countP_range_eq_card (fun i => ¬(i < 3 ∨ g - 3 ≤ i)), card_nonband h6]
  · rw [if_neg hrow]
    have e : ∀ col ∈ List.range g,
        (!is_marker col row g g) = true := by
      intro col _
      rw [is_marker_mid hrow]
      rfl
    rw [List.countP_congr (fun x hx => by rw [e x hx])]
    simp [List.countP_true]

lemma countP_gridCells (p : Nat × Nat → Bool) (gw gh : Nat) :
    (gridCells gw gh).countP p
      = ((List.range gh).map
          (fun row => (List.range gw).countP (fun col => p (col, row)))).sum := by
  unfold gridCells
  induction gh with
  | zero => simp
  | succ k ih =>
      rw [List.range_succ, List.flatMap_append, List.countP_append, ih,
        List.map_append, List.sum_append]
      simp only [List.flatMap_cons, List.flatMap_nil, List.append_nil,
        List.countP_map, List.map_cons, List.map_nil, List.sum_cons,
        List.sum_nil]
      rfl

lemma list_sum_map_range (f : Nat → Nat) :
    ∀ n, ((List.range n).map f).sum = ∑ i ∈ Finset.range n, f i := by
  intro n
  induction n with
  | zero => simp
  | succ k ih =>
      rw [List.range_succ, List.map_append, List.sum_append,
        Finset.sum_range_succ, ih]
      simp

/-- A square grid of size at least six has exactly its size squared minus the
36 marker cells as data cells. -/
lemma length_filter_gridCells {g : Nat} (h6 : 6 ≤ g) :
    ((gridCells g g).filter (fun c => !is_marker c.1 c.2 g g)).length
      = g * g - 36 := by
  rw [← List.countP_eq_length_filter, countP_gridCells]
  have e : ∀ row ∈ List.range g,
      (List.range g).countP (fun col => !is_marker col row g g)
        = if row < 3 ∨ g - 3 ≤ row then g - 6 else g :=
    fun row _ => countP_row h6
  rw [List.map_congr_left e, list_sum_map_range, Finset.sum_ite,
    Finset.sum_const, Finset.sum_const, card_band h6, card_nonband h6,
    smul_eq_mul, smul_eq_mul]
  obtain ⟨k, hk⟩ := Nat.le.dest h6
  subst hk
  rw [Nat.add_sub_cancel_left]
  have e2 : (6 + k) * (6 + k) = k * k + 12 * k + 36 := by ring
  have e3 : k * (6 + k) = 6 * k + k * k := by ring
  rw [e2, e3]
  omega

/-! The sampled symbols of a painted grid equal the assigned symbols followed
by zeros for the unassigned black data cells. -/

lemma gridCells_nodup (gw gh : Nat) : (gridCells gw gh).Nodup := by
  unfold gridCells
  induction gh with
  | zero => simp
  | succ k ih =>
      rw [List.range_succ, List.flatMap_append]
      apply List.Nodup.append
      · exact ih
      · simp only [List.flatMap_cons, List.flatMap_nil, List.append_nil]
        exact (List.nodup_range gw).map (fun a b h => by simpa using h)
      · intro x hx1 hx2
        simp only [List.mem_flatMap, List.mem_map, List.mem_range,
          List.flatMap_cons, List.flatMap_nil, List.append_nil] at hx1 hx2
        obtain ⟨r, hr, c1, hc1, rfl⟩ := hx1
        obtain ⟨c2, hc2, heq⟩ := hx2
        have : k = r := congrArg Prod.snd heq
        omega

lemma gridLookup_cons_self (c : Nat × Nat) (s : Nat)
    (dg : List ((Nat × Nat) × Nat)) :
    gridLookup ((c, s) :: dg) c = some s := by
  simp [gridLookup]

lemma gridLookup_cons_ne {c k : Nat × Nat} (hne : c ≠ k) (s : Nat)
    (dg : List ((Nat × Nat) × Nat)) :
    gridLookup ((k, s) :: dg) c = gridLookup dg c := by
  simp [gridLookup, hne]

lemma assignCells_nil_syms : ∀ (cs : List (Nat × Nat)) (gw gh : Nat),
    assignCells cs gw gh [] = []
  | [], _, _ => rfl
  | c :: rest, gw, gh => by
      unfold assignCells
      by_cases h : is_marker c.1 c.2 gw gh = true
      · rw [if_pos h]; exact assignCells_nil_syms rest gw gh
      · rw [if_neg h]

lemma decode_assign (gw gh : Nat) (cs : List (Nat × Nat)) :
    ∀ (syms : List Nat),
      cs.Nodup → (∀ s ∈ syms, s < 8) →
      syms.length ≤ (cs.filter (fun c => !is_marker c.1 c.2 gw gh)).length →
      cs.filterMap (fun c =>
          if is_marker c.1 c.2 gw gh then none
          else some (find_closest_color (dataColor (assignCells cs gw gh syms) c)))
        = syms ++ List.replicate
            ((cs.filter (fun c => !is_marker c.1 c.2 gw gh)).length - syms.length)
            0 := by
  induction cs with
  | nil =>
      intro syms _ _ hlen
      simp only [List.filter_nil, List.length_nil, Nat.le_zero,
        List.length_eq_zero] at hlen
      subst hlen
      simp
  | cons c rest ih =>
      intro syms hnd hsym hlen
      obtain ⟨hcnot, hnd2⟩ := List.nodup_cons.mp hnd
      by_cases hm : is_marker c.1 c.2 gw gh = true
      · have hassign : assignCells (c :: rest) gw gh syms
            = assignCells rest gw gh syms := by
          conv_lhs => rw [assignCells.eq_def]
          simp [hm]
        have hfilter : (c :: rest).filter (fun x => !is_marker x.1 x.2 gw gh)
            = rest.filter (fun x => !is_marker x.1 x.2 gw gh) := by
          simp [List.filter_cons, hm]
        rw [hfilter] at hlen ⊢
        rw [hassign]
        simp only [List.filterMap_cons, hm, if_pos rfl]
        exact ih syms hnd2 hsym hlen
      · have hm2 : is_marker c.1 c.2 gw gh = false := by
          simpa using hm
        have hfilter : (c :: rest).filter (fun x => !is_marker x.1 x.2 gw gh)
            = c :: rest.filter (fun x => !is_marker x.1 x.2 gw gh) := by
          simp [List.filter_cons, hm2]
        rw [hfilter] at hlen ⊢
        rw [List.length_cons] at hlen ⊢
        match syms, hsym, hlen with
        | [], _, _ =>
            have hassign : assignCells (c :: rest) gw gh [] = [] :=
              assignCells_nil_syms _ gw gh
            rw [hassign]
            have ihe := ih [] hnd2 (by simp) (by simp)
            rw [assignCells_nil_syms] at ihe
            have hcolor : dataColor [] c = (0, 0, 0) := rfl
            simp only [List.filterMap_cons, hm2, Bool.false_eq_true,
              if_neg (by simp : ¬False), hcolor, find_closest_black, ihe]
            rw [List.length_nil, Nat.sub_zero, Nat.sub_zero, List.nil_append,
              List.nil_append, List.replicate_succ]
        | s :: srest, hsym, hlen =>
            have hassign : assignCells (c :: rest) gw gh (s :: srest)
                = (c, s) :: assignCells rest gw gh srest := by
              conv_lhs => rw [assignCells.eq_def]
              simp [hm2]
            rw [hassign]
            have hcolor : dataColor ((c, s) :: assignCells rest gw gh srest) c
                = PALETTE.getD s (0, 0, 0) := by
              unfold dataColor
              rw [gridLookup_cons_self]
            have hcongr : rest.filterMap (fun x =>
                  if is_marker x.1 x.2 gw gh then none
                  else some (find_closest_color
                    (dataColor ((c, s) :: assignCells rest gw gh srest) x)))
                = rest.filterMap (fun x =>
                  if is_marker x.1 x.2 gw gh then none
                  else some (find_closest_color
                    (dataColor (assignCells rest gw gh srest) x))) := by
              apply List.filterMap_congr
              intro x hx
              by_cases hmx : is_marker x.1 x.2 gw gh = true
              · rw [if_pos hmx, if_pos hmx]
              · have hne : x ≠ c := fun he => hcnot (he ▸ hx)
                rw [if_neg hmx, if_neg hmx]
                unfold dataColor
                rw [gridLookup_cons_ne hne]
            have ihe := ih srest hnd2 (fun z hz => hsym z (by simp [hz]))
              (by simp only [List.length_cons] at hlen; omega)
            simp only [List.filterMap_cons, hm2, Bool.false_eq_true,
              if_neg (by simp : ¬False), hcolor,
              find_closest_palette s (hsym s (by simp)), hcongr, ihe]
            have e : (rest.filter (fun x => !is_marker x.1 x.2 gw gh)).length + 1
                - (s :: srest).length
                = (rest.filter (fun x => !is_marker x.1 x.2 gw gh)).length
                  - srest.length := by
              simp only [List.length_cons]; omega
            rw [e]
            rfl

/-! End-to-end round trip. -/

lemma packHeader_lt (bl rl ck : Nat) (fl : Bool) :
    ∀ b ∈ packHeader bl rl ck fl, b < 256 := by
  intro b hb
  simp only [packHeader, u32be, List.mem_append, List.mem_cons,
    List.not_mem_nil, or_false] at hb
  cases fl <;> simp at hb <;> omega

/-- Decoding a canvas painted from a data grid parses the byte stream
recovered from sampling every data cell in scan order. -/
lemma image_to_file_painted (decompFn : List Nat → Option (List Nat))
    (dg : List ((Nat × Nat) × Nat)) (g : Nat) :
    image_to_file decompFn
      { width := g * PIXEL_SIZE, height := g * PIXEL_SIZE,
        pixel := fun x y => cellColor dg g g (x / PIXEL_SIZE) (y / PIXEL_SIZE) }
      = parseAndExtract decompFn (unpack ((gridCells g g).filterMap fun c =>
          if is_marker c.1 c.2 g g then none
          else some (find_closest_color (dataColor dg c)))) := by
  have hgw : g * PIXEL_SIZE / PIXEL_SIZE = g := by
    simp [PIXEL_SIZE]
  simp only [image_to_file, hgw]
  congr 2
  apply List.filterMap_congr
  intro c hc
  by_cases hm : is_marker c.1 c.2 g g = true
  · rw [if_pos hm, if_pos hm]
  · rw [if_neg hm, if_neg hm]
    have hnone : get_marker_color c.1 c.2 g g = none :=
      get_marker_color_eq_none.mpr (by simpa using hm)
    have e1 : (c.1 * PIXEL_SIZE + PIXEL_SIZE / 2) / PIXEL_SIZE = c.1 := by
      simp only [PIXEL_SIZE]; omega
    have e2 : (c.2 * PIXEL_SIZE + PIXEL_SIZE / 2) / PIXEL_SIZE = c.2 := by
      simp only [PIXEL_SIZE]; omega
    rw [e1, e2]
    simp [cellColor, hnone]

/-- The round trip, generically in the compressed flag: decoding the encoded
canvas succeeds with no checksum warning and returns the input bytes. -/
lemma roundtrip_core
    (compressFn : List Nat → List Nat) (decompFn : List Nat → Option (List Nat))
    (compress : Bool) (input : List Nat)
    (hbytes : ∀ b ∈ (if compress then compressFn input else input), b < 256)
    (hlen : (if compress then compressFn input else input).length < 2 ^ 32)
    (hinv : compress = true →
      decompFn (if compress then compressFn input else input) = some input) :
    image_to_file decompFn (file_to_image compressFn compress input)
      = Except.ok (false, input) := by
  set body := (if compress then compressFn input else input) with hbodydef
  set ck := crc32 body &&& 0xFFFFFFFF with hckdef
  set full_data := packHeader body.length input.length ck compress ++ body
    with hfddef
  set syms := pack full_data with hsymsdef
  set g := computeGridSize syms.length with hgdef
  set dg := assignCells (gridCells g g) g g syms with hdgdef
  have h6 : 6 ≤ g := by
    have := (computeGridSize_spec syms.length).1
    rw [hgdef]
    simpa [MARKER_SIZE] using this
  have hfit : syms.length ≤ g * g - 36 := by
    have := (computeGridSize_spec syms.length).2.1
    rw [hgdef]
    simpa [count_data_positions, MARKER_SIZE] using this
  have hcklt : ck < 2 ^ 32 :=
    lt_of_le_of_lt Nat.and_le_right (by norm_num)
  have hfull : ∀ b ∈ full_data, b < 256 := by
    intro b hb
    rw [hfddef] at hb
    rcases List.mem_append.mp hb with h | h
    · exact packHeader_lt _ _ _ _ b h
    · exact hbytes b h
  have henc : file_to_image compressFn compress input
      = { width := g * PIXEL_SIZE, height := g * PIXEL_SIZE,
          pixel := fun x y => cellColor dg g g (x / PIXEL_SIZE) (y / PIXEL_SIZE) } := rfl
  rw [henc, image_to_file_painted]
  have hflen : ((gridCells g g).filter (fun c => !is_marker c.1 c.2 g g)).length
      = g * g - 36 := length_filter_gridCells h6
  have hda := decode_assign g g (gridCells g g) syms (gridCells_nodup g g)
    (fun s hs => pack_lt_eight full_data s (hsymsdef ▸ hs))
    (by rw [hflen]; exact hfit)
  rw [hflen] at hda
  rw [hdgdef, hda]
  rw [unpack, List.flatMap_append, hsymsdef, flatMap_pack,
    flatMap_replicate_zero, padBits, List.append_assoc, ← List.replicate_add,
    bitsToBytes_flatMap hfull]
  rw [hfddef]
  rw [parseAndExtract_frame decompFn input.length ck compress body _ hlen hcklt]
  have hwarn : decide (crc32 body &&& 0xFFFFFFFF ≠ ck) = false := by
    simp [hckdef]
  cases compress with
  | false =>
      rw [if_neg (by simp)]
      rw [hwarn]
      have : body = input := by rw [hbodydef]; simp
      rw [this]
  | true =>
      rw [if_pos rfl, hinv rfl, hwarn]

/-! The nearest-color search is an argmin with lowest-index tie break. -/

lemma closest_aux (c : Color) (D : Nat → Int) :
    ∀ (cs : List Color) (k : Nat) (m : Int) (i : Nat),
      (∀ n, n < cs.length → sqDist c (cs.getD n (0, 0, 0)) = D (k + n)) →
      i < k → m = D i →
      (∀ j, j < k → m ≤ D j) → (∀ j, j < i → m < D j) →
      (List.foldl (closestStep c) (some m, i) (List.enumFrom k cs)).2
          < k + cs.length
      ∧ (List.foldl (closestStep c) (some m, i) (List.enumFrom k cs)).1
          = some (D (List.foldl (closestStep c) (some m, i) (List.enumFrom k cs)).2)
      ∧ (∀ j, j < k + cs.length →
          D (List.foldl (closestStep c) (some m, i) (List.enumFrom k cs)).2 ≤ D j)
      ∧ (∀ j, j < (List.foldl (closestStep c) (some m, i) (List.enumFrom k cs)).2 →
          D (List.foldl (closestStep c) (some m, i) (List.enumFrom k cs)).2 < D j) := by
  intro cs
  induction cs with
  | nil =>
      intro k m i hl hik him hall hlt
      subst him
      simp only [List.enumFrom, List.foldl]
      exact ⟨by omega, by trivial, fun j hj => hall j (by simpa using hj), hlt⟩
  | cons pc cs ih =>
      intro k m i hl hik him hall hlt
      have hD0 : sqDist c pc = D k := by
        have := hl 0 (by simp)
        simpa using this
      rw [List.enumFrom_cons, List.foldl_cons]
      have hstep : closestStep c (some m, i) (k, pc)
          = if sqDist c pc < m then (some (sqDist c pc), k) else (some m, i) := rfl
      rw [hstep]
      have hl2 : ∀ n, n < cs.length →
          sqDist c (cs.getD n (0, 0, 0)) = D (k + 1 + n) := by
        intro n hn
        have := hl (n + 1) (by simpa using Nat.succ_lt_succ hn)
        have e : k + (n + 1) = k + 1 + n := by omega
        simpa [e] using this
      by_cases h : sqDist c pc < m
      · rw [if_pos h]
        rw [hD0] at h ⊢
        have hres := ih (k + 1) (D k) k hl2 (by omega) rfl
          (fun j hj => by
            rcases Nat.lt_or_ge j k with hj2 | hj2
            · have h3 := hall j hj2
              omega
            · have : j = k := by omega
              subst this
              exact le_refl _)
          (fun j hj => by
            have h3 := hall j hj
            omega)
        obtain ⟨A, B, Cle, Clt⟩ := hres
        refine ⟨by simp only [List.length_cons]; omega, B, ?_, Clt⟩
        intro j hj
        apply Cle
        simp only [List.length_cons] at hj
        omega
      · rw [if_neg h]
        rw [hD0] at h
        have hres := ih (k + 1) m i hl2 (by omega) him
          (fun j hj => by
            rcases Nat.lt_or_ge j k with hj2 | hj2
            · exact hall j hj2
            · have : j = k := by omega
              subst this
              omega)
          hlt
        obtain ⟨A, B, Cle, Clt⟩ := hres
        refine ⟨by simp only [List.length_cons]; omega, B, ?_, Clt⟩
        intro j hj
        apply Cle
        simp only [List.length_cons] at hj
        omega

/-- The nearest-color search returns an index below eight minimizing the
squared distance, breaking ties by the lowest index. -/
lemma find_closest_min (c : Color) :
    find_closest_color c < 8 ∧
    (∀ j, j < 8 → sqDist c (PALETTE.getD (find_closest_color c) (0, 0, 0))
      ≤ sqDist c (PALETTE.getD j (0, 0, 0))) ∧
    (∀ j, j < find_closest_color c →
      sqDist c (PALETTE.getD (find_closest_color c) (0, 0, 0))
      < sqDist c (PALETTE.getD j (0, 0, 0))) := by
  have hunf : find_closest_color c
      = (List.foldl (closestStep c) (some (sqDist c (0, 0, 0)), 0)
          (List.enumFrom 1 [(255, 0, 0), (0, 255, 0), (0, 0, 255), (255, 255, 0),
            (255, 0, 255), (0, 255, 255), (255, 255, 255)])).2 := rfl
  have hl : ∀ n, n < ([(255, 0, 0), (0, 255, 0), (0, 0, 255), (255, 255, 0),
        (255, 0, 255), (0, 255, 255), (255, 255, 255)] : List Color).length →
      sqDist c (([(255, 0, 0), (0, 255, 0), (0, 0, 255), (255, 255, 0),
        (255, 0, 255), (0, 255, 255), (255, 255, 255)] : List Color).getD n (0, 0, 0))
      = sqDist c (PALETTE.getD (1 + n) (0, 0, 0)) := by
    intro n hn
    simp only [List.length_cons, List.length_nil] at hn
    interval_cases n <;> rfl
  have hres := closest_aux c (fun j => sqDist c (PALETTE.getD j (0, 0, 0)))
    [(255, 0, 0), (0, 255, 0), (0, 0, 255), (255, 255, 0),
      (255, 0, 255), (0, 255, 255), (255, 255, 255)]
    1 (sqDist c (0, 0, 0)) 0 hl (by omega) rfl
    (fun j hj => by
      have : j = 0 := by omega
      subst this
      exact le_refl _)
    (fun j hj => absurd hj (by omega))
  obtain ⟨A, _, Cle, Clt⟩ := hres
  rw [hunf]
  exact ⟨by simpa using A, fun j hj => Cle j (by simpa using hj), Clt⟩

/-! Claim theorems. -/

set_option maxRecDepth 10000

/-- C1: for every byte sequence (entries below 256, length below 2 to the 32)
and for each setting of the compress flag, decoding the canvas produced by
encoding returns exactly the input bytes.  The external zlib pair is any
compressor and decompressor with the decompressor inverting the compressor
on this input, as the specification requires of the collaborator. -/
theorem C1_round_trip
    (compressFn : List Nat → List Nat) (decompFn : List Nat → Option (List Nat))
    (input : List Nat)
    (hin : ∀ b ∈ input, b < 256) (hlen : input.length < 2 ^ 32)
    (hcomp : ∀ b ∈ compressFn input, b < 256)
    (hclen : (compressFn input).length < 2 ^ 32)
    (hinv : decompFn (compressFn input) = some input) :
    image_to_file decompFn (file_to_image compressFn true input)
        = Except.ok (false, input)
    ∧ image_to_file decompFn (file_to_image compressFn false input)
        = Except.ok (false, input) := by
  constructor
  · exact roundtrip_core compressFn decompFn true input (by simpa using hcomp)
      (by simpa using hclen) (fun _ => by simpa using hinv)
  · exact roundtrip_core compressFn decompFn false input (by simpa using hin)
      (by simpa using hlen) (fun h => absurd h Bool.false_ne_true)

/-- Witness for C1 at the one-byte input 65 with the identity compressor. -/
theorem C1_round_trip_witness :
    image_to_file (fun d => some d) (file_to_image id true [65])
        = Except.ok (false, [65])
    ∧ image_to_file (fun d => some d) (file_to_image id false [65])
        = Except.ok (false, [65]) :=
  C1_round_trip id (fun d => some d) [65] (by decide) (by decide) (by decide)
    (by decide) rfl

/-- C2 counterexample: a byte stream with a full 13-byte header declaring a
body length of five but only two bytes after the header.  Frame parsing
does not fail with a TruncatedBody error: it returns a frame whose body is
the two available bytes (with a checksum warning), so the claim as stated
is false of the code. -/
theorem C2_counterexample :
    parseAndExtract (fun d => some d)
        [0, 0, 0, 5, 0, 0, 0, 0, 0, 0, 0, 0, 0, 1, 2]
      = Except.ok (true, [1, 2]) := rfl

/-- C2 amended: when fewer than the declared body length bytes remain after
the header, frame parsing does not fail; the Python slice silently
truncates, so with the compressed flag clear decode returns all the bytes
after the header as the (shorter) body. -/
theorem C2_truncated_body (decompFn : List Nat → Option (List Nat))
    (ba : List Nat) (hlen : 13 ≤ ba.length)
    (hshort : ba.length - 13 < readU32 ba 0)
    (hflag : ba.getD 12 0 = 0) :
    parseAndExtract decompFn ba
      = Except.ok (decide (crc32 (ba.drop 13) &&& 0xFFFFFFFF ≠ readU32 ba 8),
          ba.drop 13) := by
  simp only [parseAndExtract]
  rw [if_neg (by omega)]
  have htake : (ba.drop 13).take (readU32 ba 0) = ba.drop 13 := by
    apply List.take_of_length_le
    rw [List.length_drop]
    omega
  rw [htake, hflag]
  simp

/-- Witness for C2 amended: header declares body length 5 but only two bytes
follow. -/
theorem C2_truncated_body_witness :
    parseAndExtract (fun d => some d)
        [0, 0, 0, 5, 0, 0, 0, 0, 0, 0, 0, 0, 0, 7, 9]
      = Except.ok (decide (crc32 ([0, 0, 0, 5, 0, 0, 0, 0, 0, 0, 0, 0, 0, 7, 9].drop 13)
            &&& 0xFFFFFFFF
            ≠ readU32 [0, 0, 0, 5, 0, 0, 0, 0, 0, 0, 0, 0, 0, 7, 9] 8),
          [0, 0, 0, 5, 0, 0, 0, 0, 0, 0, 0, 0, 0, 7, 9].drop 13) :=
  C2_truncated_body (fun d => some d) _ (by decide) (by decide) (by decide)

/-- C3 counterexample: a 73 by 73 pixel canvas (73 is not a multiple of the
cell size 8) decodes without any MalformedImage error: the all-black
canvas decodes to the empty byte sequence with no warning. -/
theorem C3_counterexample :
    image_to_file (fun d => some d)
        { width := 73, height := 73, pixel := fun _ _ => (0, 0, 0) }
      = Except.ok (false, []) := rfl

/-- C3 amended: decode never checks divisibility; it floor-divides the canvas
dimensions by the cell size and proceeds with the rounded-down grid, so
decoding any canvas gives the same result as decoding the canvas with its
dimensions rounded down to multiples of 8.  No MalformedImage error
exists in the code. -/
theorem C3_floor_division (decompFn : List Nat → Option (List Nat))
    (w h : Nat) (pix : Nat → Nat → Color) :
    image_to_file decompFn { width := w, height := h, pixel := pix }
      = image_to_file decompFn
          { width := w / PIXEL_SIZE * PIXEL_SIZE,
            height := h / PIXEL_SIZE * PIXEL_SIZE, pixel := pix } := by
  simp only [image_to_file]
  rw [Nat.mul_div_cancel _ (by norm_num [PIXEL_SIZE] : 0 < PIXEL_SIZE),
    Nat.mul_div_cancel _ (by norm_num [PIXEL_SIZE] : 0 < PIXEL_SIZE)]

/-- C4: for every symbol count, with marker size 3, the grid size computed on
encode is the smallest g at least 2 * 3 with g * g - 4 * 3 * 3 at least the
symbol count (the subtraction never truncates since g is at least 6). -/
theorem C4_grid_size_least (symbol_count : Nat) :
    2 * 3 ≤ computeGridSize symbol_count
    ∧ symbol_count ≤ computeGridSize symbol_count * computeGridSize symbol_count
        - 4 * 3 * 3
    ∧ ∀ g, 2 * 3 ≤ g → symbol_count ≤ g * g - 4 * 3 * 3 →
        computeGridSize symbol_count ≤ g := by
  obtain ⟨h1, h2, h3⟩ := computeGridSize_spec symbol_count
  refine ⟨by simpa [MARKER_SIZE] using h1,
    by simpa [count_data_positions, MARKER_SIZE] using h2, ?_⟩
  intro g hg hfit
  exact h3 g (by simpa [MARKER_SIZE] using hg)
    (by simpa [count_data_positions, MARKER_SIZE] using hfit)

/-- Witness for C4: 48 symbols need a grid of size at most 10 (and in fact
exactly 10). -/
theorem C4_grid_size_least_witness :
    computeGridSize 48 ≤ 10 ∧ computeGridSize 48 = 10 :=
  ⟨(C4_grid_size_least 48).2.2 10 (by decide) (by decide), by decide⟩

/-- C5: unpacking the symbols produced by packing a byte sequence and taking
the first length-many bytes restores the sequence exactly. -/
theorem C5_pack_unpack (b : List Nat) (hb : ∀ x ∈ b, x < 256) :
    (unpack (pack b)).take b.length = b := by
  rw [unpack_pack hb]
  exact List.take_left b _

/-- Witness for C5 at the two-byte input 65 66. -/
theorem C5_pack_unpack_witness :
    (unpack (pack [65, 66])).take ([65, 66] : List Nat).length = [65, 66] :=
  C5_pack_unpack [65, 66] (by decide)

/-- C6: every symbol below eight maps to its palette color and back to itself,
and the nearest-color match is a true argmin of the squared Euclidean RGB
distance over the palette with ties broken by the lowest index. -/
theorem C6_palette_quantization :
    (∀ s, s < 8 → find_closest_color (PALETTE.getD s (0, 0, 0)) = s)
    ∧ ∀ c : Color, find_closest_color c < 8
      ∧ (∀ j, j < 8 → sqDist c (PALETTE.getD (find_closest_color c) (0, 0, 0))
          ≤ sqDist c (PALETTE.getD j (0, 0, 0)))
      ∧ (∀ j, j < find_closest_color c →
          sqDist c (PALETTE.getD (find_closest_color c) (0, 0, 0))
          < sqDist c (PALETTE.getD j (0, 0, 0))) :=
  ⟨find_closest_palette, find_closest_min⟩

/-- Witness for C6 at symbol 3 and at the off-palette color 200 10 10, which
must quantize to red, index 1. -/
theorem C6_palette_quantization_witness :
    find_closest_color (PALETTE.getD 3 (0, 0, 0)) = 3
    ∧ sqDist (200, 10, 10) (PALETTE.getD (find_closest_color (200, 10, 10)) (0, 0, 0))
      ≤ sqDist (200, 10, 10) (PALETTE.getD 1 (0, 0, 0)) :=
  ⟨C6_palette_quantization.1 3 (by decide),
    (C6_palette_quantization.2 (200, 10, 10)).2.1 1 (by decide)⟩

/-- C7: on every marker cell the painted marker color follows the pattern the
specification describes: top-left alternating by col plus row mod 2,
top-right and bottom-left by the offset from the inner edge of the block
mod 2, bottom-right by the minimum of the four edge distances within the
block mod 2 (with even always white in the top-left block and even always
black in the other three). -/
theorem C7_marker_pattern (col row g : Nat)
    (hmark : is_marker col row g g = true) :
    get_marker_color col row g g = some (markerColorSpec col row g) := by
  simp only [is_marker, MARKER_SIZE, Bool.or_eq_true, decide_eq_true_eq] at hmark
  unfold get_marker_color markerColorSpec MARKER_SIZE
  simp only [show (3 : Nat) - 1 = 2 from rfl]
  split_ifs <;> first | rfl | (exfalso; omega)

/-- Witness for C7 at the top-right marker cell col 9 row 0 of a size-10
grid. -/
theorem C7_marker_pattern_witness :
    get_marker_color 9 0 10 10 = some (markerColorSpec 9 0 10) :=
  C7_marker_pattern 9 0 10 (by decide)

/-- C8: when the recomputed CRC-32 of the sliced body differs from the header
checksum field, decode does not abort: the result carries the warning flag
set to true and decode still proceeds to decompression when the flag byte
is nonzero, and to output otherwise. -/
theorem C8_checksum_advisory (decompFn : List Nat → Option (List Nat))
    (ba : List Nat) (hlen : 13 ≤ ba.length)
    (hmismatch : crc32 ((ba.drop 13).take (readU32 ba 0)) &&& 0xFFFFFFFF
      ≠ readU32 ba 8) :
    parseAndExtract decompFn ba
      = if ba.getD 12 0 ≠ 0 then
          match decompFn ((ba.drop 13).take (readU32 ba 0)) with
          | some d => Except.ok (true, d)
          | none => Except.error "Decompression failed"
        else Except.ok (true, (ba.drop 13).take (readU32 ba 0)) := by
  simp only [parseAndExtract]
  rw [if_neg (by omega)]
  simp [hmismatch]

/-- Witness for C8: a header declaring a zero-length body with checksum field
7, which cannot match the CRC-32 of the empty body. -/
theorem C8_checksum_advisory_witness :
    parseAndExtract (fun d => some d)
        [0, 0, 0, 0, 0, 0, 0, 0, 0, 0, 0, 7, 0]
      = Except.ok (true, []) := by
  have h := C8_checksum_advisory (fun d => some d)
    [0, 0, 0, 0, 0, 0, 0, 0, 0, 0, 0, 7, 0] (by decide) (by decide)
  simpa using h

/-- C9: the concrete scenario of the specification: encoding the five bytes
65 66 67 68 69 with the compress flag clear gives a frame of 13 plus 5
bytes that packs to exactly 48 symbols, which is the rounded-up bit count
(13 plus 5) times 8 over 3; the chosen grid has size 10 with 64 data
cells, at least the 48 needed, next to 4 marker blocks of 9 cells each,
36 marker cells in total; and decoding the painted canvas returns exactly
the five input bytes. -/
theorem C9_concrete_scenario :
    (pack (packHeader 5 5 (crc32 [65, 66, 67, 68, 69] &&& 0xFFFFFFFF) false
        ++ [65, 66, 67, 68, 69])).length = 48
    ∧ ((13 + 5) * 8 + 3 - 1) / 3 = 48
    ∧ computeGridSize 48 = 10
    ∧ count_data_positions 10 = 64 ∧ 48 ≤ 64
    ∧ ((gridCells 10 10).filter (fun c => is_marker c.1 c.2 10 10)).length = 36
    ∧ image_to_file (fun d => some d)
        (file_to_image id false [65, 66, 67, 68, 69])
      = Except.ok (false, [65, 66, 67, 68, 69]) := by
  refine ⟨by decide, by decide, by decide, by decide, by decide, by decide, rfl⟩

/-- C10: on a flag-false frame the decoded bytes are exactly the
body-length-byte slice after the 13-byte header, and the raw length field
(bytes 4 to 7) is never consulted: any byte stream agreeing with the given
one outside bytes 4 to 7 decodes to the identical result. -/
theorem C10_uncompressed_path (decompFn : List Nat → Option (List Nat))
    (ba : List Nat) (hlen : 13 ≤ ba.length) (hflag : ba.getD 12 0 = 0) :
    parseAndExtract decompFn ba
      = Except.ok (decide (crc32 ((ba.drop 13).take (readU32 ba 0))
            &&& 0xFFFFFFFF ≠ readU32 ba 8),
          (ba.drop 13).take (readU32 ba 0))
    ∧ ∀ ba2 : List Nat, ba2.length = ba.length →
        (∀ i, i < ba.length → i < 4 ∨ 8 ≤ i → ba2.getD i 0 = ba.getD i 0) →
        parseAndExtract decompFn ba2 = parseAndExtract decompFn ba := by
  constructor
  · simp only [parseAndExtract]
    rw [if_neg (by omega), hflag]
    simp
  · intro ba2 hlen2 hagree
    have hr0 : readU32 ba2 0 = readU32 ba 0 := by
      unfold readU32
      rw [hagree 0 (by omega) (by omega), hagree 1 (by omega) (by omega),
        hagree 2 (by omega) (by omega), hagree 3 (by omega) (by omega)]
    have hr4 : readU32 ba2 8 = readU32 ba 8 := by
      unfold readU32
      rw [hagree 8 (by omega) (by omega), hagree 9 (by omega) (by omega),
        hagree 10 (by omega) (by omega), hagree 11 (by omega) (by omega)]
    have h12 : ba2.getD 12 0 = ba.getD 12 0 :=
      hagree 12 (by omega) (by omega)
    have hdrop : ba2.drop 13 = ba.drop 13 := by
      apply List.ext_getElem
      · simp [List.length_drop, hlen2]
      · intro n h1 h2
        have hb : 13 + n < ba.length := by
          rw [List.length_drop] at h2; omega
        have hb2 : 13 + n < ba2.length := by rw [hlen2]; exact hb
        have := hagree (13 + n) hb (by omega)
        rw [List.getD_eq_getElem ba2 0 hb2, List.getD_eq_getElem ba 0 hb] at this
        rw [List.getElem_drop, List.getElem_drop]
        exact this
    simp only [parseAndExtract, hr0, hr4, h12, hdrop, hlen2]

/-- Witness for C10: a flag-false frame with body length 1, with the raw
length bytes overwritten from 0 0 0 9 to 1 2 3 4 without changing the
decode result. -/
theorem C10_uncompressed_path_witness :
    parseAndExtract (fun d => some d)
        [0, 0, 0, 1, 0, 0, 0, 9, 0, 0, 0, 0, 0, 8]
      = Except.ok (decide (crc32 [8] &&& 0xFFFFFFFF ≠ 0), [8])
    ∧ parseAndExtract (fun d => some d)
        [0, 0, 0, 1, 1, 2, 3, 4, 0, 0, 0, 0, 0, 8]
      = parseAndExtract (fun d => some d)
        [0, 0, 0, 1, 0, 0, 0, 9, 0, 0, 0, 0, 0, 8] := by
  have h := C10_uncompressed_path (fun d => some d)
    [0, 0, 0, 1, 0, 0, 0, 9, 0, 0, 0, 0, 0, 8] (by decide) (by decide)
  refine ⟨?_, ?_⟩
  · have h1 := h.1
    simpa using h1
  · exact h.2 [0, 0, 0, 1, 1, 2, 3, 4, 0, 0, 0, 0, 0, 8] (by decide)
      (by decide)

end UDCode
